import Mathlib

/-!
Shallow embedding of the EDA engine in `app.py` (KrishMaheshwariDev/EDA-DashingBoard).

Modelling conventions:
* A pandas `DataFrame` is a list of named, dtype-tagged columns (`Col`); every
  cell is either a rational number (`Cell.num`), a categorical label
  (`Cell.cat`, labels drawn from `ℕ`, an arbitrary linearly ordered label set
  standing in for lexicographically ordered strings), or missing (`Cell.na`,
  pandas `NaN`).
* Pandas dtypes are modelled by `Dtype`; `int32` stands in for the numeric
  dtypes that `select_dtypes(include=["number"])` accepts but the literal
  `["int64", "float64"]` selection in the top-K correlation code does not.
* Floating point is modelled exactly: intermediate statistics are rationals,
  and the Pearson coefficient `cov / sqrt(vx * vy)` is carried as the pair
  `CorrVal` of its rational covariance and variance-product, with its real
  value recovered by `CorrVal.val`.  Pandas `NaN` results (zero-variance
  correlations, `std` of a single observation) are `Option.none`.
* Operations that raise (`Index.drop` on a missing label, `corr()[target]`
  with `target` absent) return `Option.none` at the call that raises.
-/

/-- Column storage dtypes, a representative cross-section of pandas dtypes. -/
inductive Dtype where
  | int64
  | float64
  | int32
  | object
  | category
  | datetime
  | boolean
deriving DecidableEq, Repr

/-- One cell of a column: a numeric value, a categorical label, or missing. -/
inductive Cell where
  | num (q : ℚ)
  | cat (v : ℕ)
  | na
deriving DecidableEq, Repr

/-- A named column with its declared dtype and cell values. -/
structure Col where
  name : String
  dtype : Dtype
  vals : List Cell
deriving DecidableEq, Repr

/-- A dataframe: an ordered list of named columns. -/
structure DataFrame where
  cols : List Col
deriving DecidableEq, Repr

/-- Names of a dataframe's columns, in order (`df.columns`). -/
def DataFrame.names (df : DataFrame) : List String :=
  df.cols.map Col.name

/-- Dtype of the first column carrying a name (`df[name].dtype`). -/
def DataFrame.dtypeOf (df : DataFrame) (name : String) : Option Dtype :=
  (df.cols.find? (fun c => c.name = name)).map Col.dtype

/-- Column names whose dtype belongs to the requested dtype list, in original
column order (`df.select_dtypes(include=ds).columns`). -/
def selectDtypes (df : DataFrame) (ds : List Dtype) : List String :=
  (df.cols.filter (fun c => c.dtype ∈ ds)).map Col.name

/-- Dtypes matched by `select_dtypes(include=["number"])`. -/
def numberDtypes : List Dtype := [Dtype.int64, Dtype.float64, Dtype.int32]

/-- Dtypes accepted by `pd.api.types.is_numeric_dtype` (which, unlike the
`"number"` selection, also accepts boolean columns). -/
def isNumericDtype : Dtype → Bool
  | Dtype.int64 => true
  | Dtype.float64 => true
  | Dtype.int32 => true
  | Dtype.boolean => true
  | _ => false

/-- Branch condition of line 22: `pd.api.types.is_numeric_dtype(df[target])`. -/
def isTargetNumeric (df : DataFrame) (target : String) : Bool :=
  match df.dtypeOf target with
  | some d => isNumericDtype d
  | none => false

/-- Line 27: `all_num = df.select_dtypes(include=["number"]).columns`. -/
def allNum (df : DataFrame) : List String :=
  selectDtypes df numberDtypes

/-- Line 28: `all_cat = df.select_dtypes(include=["object", "category"]).columns`. -/
def allCat (df : DataFrame) : List String :=
  selectDtypes df [Dtype.object, Dtype.category]

/-- Line 30: `num_features = all_num.drop(target) if target in all_num else all_num`. -/
def numFeatures (df : DataFrame) (target : String) : List String :=
  if target ∈ allNum df then (allNum df).filter (fun c => c ≠ target) else allNum df

/-- Line 31: `cat_features = all_cat.drop(target) if target in all_cat else all_cat`. -/
def catFeatures (df : DataFrame) (target : String) : List String :=
  if target ∈ allCat df then (allCat df).filter (fun c => c ≠ target) else allCat df

/-- Pandas `Index.drop`, which raises `KeyError` (here: `none`) when the label
is absent from the index. -/
def indexDrop (l : List String) (x : String) : Option (List String) :=
  if x ∈ l then some (l.filter (fun c => c ≠ x)) else none

/-- Line 291 (categorical branch): the unguarded
`df.select_dtypes(include=["object", "category"]).columns.drop(target)`. -/
def catForClass (df : DataFrame) (target : String) : Option (List String) :=
  indexDrop (allCat df) target

/-- Numeric view of a cell; non-numeric and missing cells read as `NaN` (`none`). -/
def Cell.toQ : Cell → Option ℚ
  | Cell.num q => some q
  | _ => none

/-- Categorical view of a cell; numeric and missing cells read as missing. -/
def Cell.toLabel : Cell → Option ℕ
  | Cell.cat v => some v
  | _ => none

/-- Numeric values of the column named `name` (`df[name]` for a numeric column);
an absent column reads as empty. -/
def DataFrame.numCol (df : DataFrame) (name : String) : List (Option ℚ) :=
  match df.cols.find? (fun c => c.name = name) with
  | some c => c.vals.map Cell.toQ
  | none => []

/-- Categorical values of the column named `name`. -/
def DataFrame.catCol (df : DataFrame) (name : String) : List (Option ℕ) :=
  match df.cols.find? (fun c => c.name = name) with
  | some c => c.vals.map Cell.toLabel
  | none => []

/-- Mean of a rational list (`0` on the empty list, whose sum and length are `0`). -/
def listMean (l : List ℚ) : ℚ := l.sum / l.length

/-- Deviations of a list from its mean. -/
def centered (l : List ℚ) : List ℚ := l.map (fun x => x - listMean l)

/-- Dot product of two equally long rational lists. -/
def dot (xs ys : List ℚ) : ℚ :=
  ((xs.zip ys).map (fun p => p.1 * p.2)).sum

/-- Sum of squared deviations from the mean (variance numerator; the `1/n` or
`1/(n-1)` factor cancels inside a Pearson coefficient). -/
def varRaw (l : List ℚ) : ℚ := dot (centered l) (centered l)

/-- Sum of products of paired deviations (covariance numerator). -/
def covRaw (ps : List (ℚ × ℚ)) : ℚ :=
  dot (centered (ps.map Prod.fst)) (centered (ps.map Prod.snd))

/-- Pairwise-complete observations: the row pairs where both columns are
non-missing, as used by pandas `DataFrame.corr`. -/
def pairedObs (xs ys : List (Option ℚ)) : List (ℚ × ℚ) :=
  (xs.zip ys).filterMap fun p =>
    match p.1, p.2 with
    | some a, some b => some (a, b)
    | _, _ => none

/-- Exact representation of a Pearson coefficient `cov / sqrt(vprod)`: its
covariance numerator and the product of the two variance numerators. -/
structure CorrVal where
  cov : ℚ
  vprod : ℚ
deriving DecidableEq, Repr

/-- Real value of the represented coefficient. -/
noncomputable def CorrVal.val (c : CorrVal) : ℝ :=
  (c.cov : ℝ) / Real.sqrt (c.vprod : ℝ)

/-- Pearson correlation of two columns over their pairwise-complete
observations; `none` is pandas' `NaN` for a zero-variance side. -/
def corrQ (xs ys : List (Option ℚ)) : Option CorrVal :=
  let ps := pairedObs xs ys
  let vx := varRaw (ps.map Prod.fst)
  let vy := varRaw (ps.map Prod.snd)
  if vx = 0 ∨ vy = 0 then none else some ⟨covRaw ps, vx * vy⟩

/-- Entry of a correlation matrix or series for the named columns of `df`. -/
def corrEntry (df : DataFrame) (a b : String) : Option CorrVal :=
  corrQ (df.numCol a) (df.numCol b)

/-- Rational sort key order-isomorphic to the coefficient's real value: the
sign-carrying square `sign(cov) * cov^2 / vprod`. -/
def CorrVal.key (c : CorrVal) : ℚ :=
  if c.cov < 0 then -(c.cov ^ 2 / c.vprod) else c.cov ^ 2 / c.vprod

/-- Sort key of an optional coefficient, with `NaN` (`none`) reading as bottom
so that a descending sort puts it last (pandas `na_position="last"`). -/
def optKey (c : Option CorrVal) : WithBot ℚ :=
  match c with
  | some v => (v.key : WithBot ℚ)
  | none => ⊥

/-- Descending order on correlation-series entries, `NaN` last, as produced by
`sort_values(ascending=False)` in line 141. -/
def entryDesc (p q : String × Option CorrVal) : Prop :=
  optKey q.2 ≤ optKey p.2

instance : DecidableRel entryDesc := fun p q =>
  inferInstanceAs (Decidable (optKey q.2 ≤ optKey p.2))

instance : IsTotal (String × Option CorrVal) entryDesc :=
  ⟨fun p q => le_total (optKey q.2) (optKey p.2)⟩

instance : IsTrans (String × Option CorrVal) entryDesc :=
  ⟨fun _ _ _ h h' => le_trans h' h⟩

/-- Lines 137-143: the top-K correlation ranking
`df.select_dtypes(include=["int64","float64"]).corr()[target].drop(target).sort_values(ascending=False).head(k)`;
`none` models the `KeyError` raised by `corr()[target]` when the target is not
among the `int64`/`float64` columns. -/
def topKCorr (df : DataFrame) (target : String) (k : ℕ) :
    Option (List (String × Option CorrVal)) :=
  let cols := selectDtypes df [Dtype.int64, Dtype.float64]
  if target ∈ cols then
    some ((List.insertionSort entryDesc
      ((cols.filter (fun c => c ≠ target)).map (fun f => (f, corrEntry df f target)))).take k)
  else none

/-- Decidable test for `threshold < |corr| < 1.0`: with `vprod > 0` and
`0 ≤ lo`, squaring turns both float comparisons of line 184 into rational
ones (`absBetween_iff_val` below proves the equivalence). -/
def absBetween (c : CorrVal) (lo : ℚ) : Bool :=
  decide (lo ^ 2 * c.vprod < c.cov ^ 2) && decide (c.cov ^ 2 < c.vprod)

/-- Descending order on stacked `|corr|` entries, as in the
`sort_values(ascending=False)` of line 187. -/
def absDesc (p q : String × String × CorrVal) : Prop :=
  q.2.2.cov ^ 2 * p.2.2.vprod ≤ p.2.2.cov ^ 2 * q.2.2.vprod

instance : DecidableRel absDesc := fun p q =>
  inferInstanceAs (Decidable (q.2.2.cov ^ 2 * p.2.2.vprod ≤ p.2.2.cov ^ 2 * q.2.2.vprod))

/-- Lines 182-188: `corr_matrix.where((corr_matrix > 0.8) & (corr_matrix < 1.0)).stack()`,
on the absolute correlation matrix of the listed features.  `stack` walks the
matrix row-major and keeps the entries where the filter held (`NaN` entries of
the matrix never satisfy the filter). -/
def highCorrStack (df : DataFrame) (feats : List String) : List (String × String × CorrVal) :=
  feats.flatMap fun a =>
    feats.filterMap fun b =>
      match corrEntry df a b with
      | some c => if absBetween c (8/10) then some (a, b, c) else none
      | none => none

/-- Result of the multicollinearity block: either the explicit
"Not enough numerical features" signal of line 178 or the sorted stacked pairs. -/
inductive RedundancyResult where
  | insufficientFeatures
  | pairs (l : List (String × String × CorrVal))
deriving DecidableEq

/-- Lines 177-188: the multicollinearity detector, guarded by
`len(num_features) < 2`. -/
def findRedundantPairs (df : DataFrame) (target : String) : RedundancyResult :=
  if (numFeatures df target).length < 2 then RedundancyResult.insufficientFeatures
  else RedundancyResult.pairs
    (List.insertionSort absDesc (highCorrStack df (numFeatures df target)))

/-- Everything the Correlation & Risk tab computes, in source order: the top-K
ranking of lines 137-143 and the multicollinearity block of lines 177-188.
The two computations are independent reads of `df`. -/
structure Tab4Output where
  topK : Option (List (String × Option CorrVal))
  redundancy : RedundancyResult

/-- The Correlation & Risk tab as one straight-line computation. -/
def tab4 (df : DataFrame) (target : String) (k : ℕ) : Tab4Output :=
  { topK := topKCorr df target k
    redundancy := findRedundantPairs df target }

/-- Ascending label order used by `groupby(..., sort=True)` and `sort_index()`. -/
def labelLe (a b : ℕ) : Prop := a ≤ b

instance : DecidableRel labelLe := fun a b => inferInstanceAs (Decidable (a ≤ b))

instance : IsTotal ℕ labelLe := ⟨fun a b => le_total a b⟩

instance : IsTrans ℕ labelLe := ⟨fun _ _ _ h h' => le_trans h h'⟩

/-- Distinct non-missing labels of a categorical column, in ascending label
order: the group keys of `df.groupby(col)` (pandas drops `NaN` keys and sorts). -/
def groupKeys (xs : List (Option ℕ)) : List ℕ :=
  List.insertionSort labelLe (xs.filterMap id).dedup

/-- Non-missing target values of the rows whose group key equals `k`. -/
def groupVals (xs : List (Option ℕ)) (ys : List (Option ℚ)) (k : ℕ) : List ℚ :=
  (xs.zip ys).filterMap fun p =>
    match p.1, p.2 with
    | some a, some q => if a = k then some q else none
    | _, _ => none

/-- Pandas median: mean of the two middle order statistics (the middle one for
odd length), `NaN` (`none`) on an empty group. -/
def medianQ (l : List ℚ) : Option ℚ :=
  let s := List.insertionSort (fun a b : ℚ => a ≤ b) l
  if l.length = 0 then none
  else if l.length % 2 = 1 then some (s.getD (l.length / 2) 0)
  else some ((s.getD (l.length / 2 - 1) 0 + s.getD (l.length / 2) 0) / 2)

/-- Aggregate record of line 212: `agg(["median", "std", "count"])`.  The
standard deviation is carried by its radicand, the `ddof = 1` sample variance,
which is `NaN` (`none`) when fewer than two observations exist. -/
structure GroupStats where
  median : Option ℚ
  svar : Option ℚ
  count : ℕ
deriving DecidableEq

/-- Real standard deviation of a group, `none` being pandas `NaN`. -/
noncomputable def GroupStats.std (g : GroupStats) : Option ℝ :=
  g.svar.map fun v => Real.sqrt (v : ℝ)

/-- Aggregates of one group's observations. -/
def mkStats (l : List ℚ) : GroupStats :=
  { median := medianQ l
    svar := if l.length ≤ 1 then none else some (varRaw l / ((l.length : ℚ) - 1))
    count := l.length }

/-- Ascending-by-median order of line 213 (`sort_values("median")`), `NaN`
medians last (`na_position="last"`), via the `WithTop` embedding. -/
def medianKey (m : Option ℚ) : WithTop ℚ :=
  match m with
  | some q => (q : WithTop ℚ)
  | none => ⊤

/-- Order on grouped-stats rows: ascending by median. -/
def statsAsc (p q : ℕ × GroupStats) : Prop :=
  medianKey p.2.median ≤ medianKey q.2.median

instance : DecidableRel statsAsc := fun p q =>
  inferInstanceAs (Decidable (medianKey p.2.median ≤ medianKey q.2.median))

instance : IsTotal (ℕ × GroupStats) statsAsc :=
  ⟨fun p q => le_total (medianKey p.2.median) (medianKey q.2.median)⟩

instance : IsTrans (ℕ × GroupStats) statsAsc :=
  ⟨fun _ _ _ h h' => le_trans h h'⟩

/-- Lines 212-213: `df.groupby(cat_feature)[target].agg(["median", "std", "count"])`
followed by `sort_values("median")`. -/
def groupStats (df : DataFrame) (feature target : String) : List (ℕ × GroupStats) :=
  let xs := df.catCol feature
  let ys := df.numCol target
  List.insertionSort statsAsc
    ((groupKeys xs).map fun k => (k, mkStats (groupVals xs ys k)))

/-- Ascending-by-value order of line 201 (`sort_values()` on the median series). -/
def medAsc (p q : ℕ × Option ℚ) : Prop :=
  medianKey p.2 ≤ medianKey q.2

instance : DecidableRel medAsc := fun p q =>
  inferInstanceAs (Decidable (medianKey p.2 ≤ medianKey q.2))

/-- Line 201: `df.groupby(cat_feature)[target].median().sort_values()`. -/
def impactMedians (df : DataFrame) (feature target : String) : List (ℕ × Option ℚ) :=
  let xs := df.catCol feature
  let ys := df.numCol target
  List.insertionSort medAsc ((groupKeys xs).map fun k => (k, medianQ (groupVals xs ys k)))

/-- Rows of `pd.crosstab(df[f], df[t])` before normalization: the pairs of rows
where both categorical columns are non-missing. -/
def crossPairs (xs ys : List (Option ℕ)) : List (ℕ × ℕ) :=
  (xs.zip ys).filterMap fun p =>
    match p.1, p.2 with
    | some a, some b => some (a, b)
    | _, _ => none

/-- Line 295: `pd.crosstab(df[cat_feature], df[target], normalize="index").sort_index()`.
Row labels are the sorted distinct feature categories, column labels the sorted
distinct target classes, and each cell the within-row proportion. -/
def crosstab (xs ys : List (Option ℕ)) : List (ℕ × List (ℕ × ℚ)) :=
  let ps := crossPairs xs ys
  let rows := List.insertionSort labelLe (ps.map Prod.fst).dedup
  let colsK := List.insertionSort labelLe (ps.map Prod.snd).dedup
  rows.map fun r =>
    let total : ℕ := (ps.filter (fun p => p.1 = r)).length
    (r, colsK.map fun c =>
      (c, ((ps.filter (fun p => p.1 = r ∧ p.2 = c)).length : ℚ) / (total : ℚ)))

/-- The crosstab of line 295 on named columns of `df`. -/
def crosstabDF (df : DataFrame) (feature target : String) : List (ℕ × List (ℕ × ℚ)) :=
  crosstab (df.catCol feature) (df.catCol target)

/-- Three-row frame with a numeric target `t = (0,1,2)`, a feature `a` that is
perfectly anti-correlated with `t`, and a feature `b` with correlation `1/2`. -/
def dfSign : DataFrame :=
  ⟨[⟨"a", Dtype.int64, [Cell.num 0, Cell.num (-1), Cell.num (-2)]⟩,
    ⟨"b", Dtype.int64, [Cell.num 0, Cell.num (-1), Cell.num 1]⟩,
    ⟨"t", Dtype.int64, [Cell.num 0, Cell.num 1, Cell.num 2]⟩]⟩

/-- Four-row frame whose features `x = (1,2,3,4)` and `y = (1,2,3,5)` have
absolute correlation `13/sqrt(175)`, strictly between `0.8` and `1`. -/
def dfPair : DataFrame :=
  ⟨[⟨"x", Dtype.int64, [Cell.num 1, Cell.num 2, Cell.num 3, Cell.num 4]⟩,
    ⟨"y", Dtype.int64, [Cell.num 1, Cell.num 2, Cell.num 3, Cell.num 5]⟩,
    ⟨"t", Dtype.int64, [Cell.num 1, Cell.num 2, Cell.num 3, Cell.num 4]⟩]⟩

/-- Frame with an `int64` target, an `int64` feature and an `int32` feature:
the schema classifier counts both features as numeric, the top-K correlation
selection only the `int64` one. -/
def dfMixed : DataFrame :=
  ⟨[⟨"t", Dtype.int64, [Cell.num 0, Cell.num 1, Cell.num 2]⟩,
    ⟨"a", Dtype.int64, [Cell.num 0, Cell.num 1, Cell.num 2]⟩,
    ⟨"b", Dtype.int32, [Cell.num 0, Cell.num 1, Cell.num 2]⟩]⟩

/-- Frame with two categorical columns and a numeric target; category `1` of
column `g` has a single observation. -/
def dfGroups : DataFrame :=
  ⟨[⟨"g", Dtype.object, [Cell.cat 0, Cell.cat 0, Cell.cat 1]⟩,
    ⟨"h", Dtype.object, [Cell.cat 5, Cell.cat 7, Cell.cat 7]⟩,
    ⟨"p", Dtype.int64, [Cell.num 1, Cell.num 2, Cell.num 5]⟩]⟩

/-- Frame whose only numeric column is the target itself: zero numeric features. -/
def dfSmallNum : DataFrame :=
  ⟨[⟨"t", Dtype.int64, [Cell.num 0, Cell.num 1]⟩,
    ⟨"c", Dtype.object, [Cell.cat 0, Cell.cat 1]⟩]⟩

/-- Frame with two object columns, for the categorical-target branch. -/
def dfCatT : DataFrame :=
  ⟨[⟨"c", Dtype.object, [Cell.cat 0, Cell.cat 1]⟩,
    ⟨"d", Dtype.object, [Cell.cat 2, Cell.cat 3]⟩]⟩

/-- Frame whose target column is a datetime: non-numeric but also not
object/category dtype. -/
def dfDateT : DataFrame :=
  ⟨[⟨"dt", Dtype.datetime, [Cell.na, Cell.na]⟩,
    ⟨"c", Dtype.object, [Cell.cat 0, Cell.cat 1]⟩]⟩

theorem dot_comm (xs ys : List ℚ) : dot xs ys = dot ys xs := by
  induction xs generalizing ys with
  | nil => cases ys <;> simp [dot]
  | cons x xs ih =>
    cases ys with
    | nil => simp [dot]
    | cons y ys =>
      have h := ih ys
      simp only [dot, List.zip_cons_cons, List.map_cons, List.sum_cons] at h ⊢
      rw [h, mul_comm]

theorem dot_self_nonneg (xs : List ℚ) : 0 ≤ dot xs xs := by
  induction xs with
  | nil => simp [dot]
  | cons x xs ih =>
    simp only [dot, List.zip_cons_cons, List.map_cons, List.sum_cons] at ih ⊢
    exact add_nonneg (mul_self_nonneg x) ih

theorem dot_eq_sum (xs ys : List ℚ) (h : ys.length = xs.length) :
    dot xs ys = ∑ i ∈ Finset.range xs.length, xs.getD i 0 * ys.getD i 0 := by
  induction xs generalizing ys with
  | nil => simp [dot]
  | cons x xs ih =>
    cases ys with
    | nil => simp at h
    | cons y ys =>
      simp only [List.length_cons, Nat.succ.injEq] at h
      simp only [dot, List.zip_cons_cons, List.map_cons, List.sum_cons,
        List.length_cons]
      rw [Finset.sum_range_succ']
      simp only [List.getD_cons_succ, List.getD_cons_zero]
      have h' := ih ys h
      simp only [dot] at h'
      rw [h', add_comm]

theorem dot_sq_le (xs ys : List ℚ) (h : ys.length = xs.length) :
    dot xs ys ^ 2 ≤ dot xs xs * dot ys ys := by
  have hyy : dot ys ys = ∑ i ∈ Finset.range xs.length, ys.getD i 0 * ys.getD i 0 := by
    rw [dot_eq_sum ys ys rfl, h]
  rw [dot_eq_sum xs ys h, dot_eq_sum xs xs rfl, hyy]
  have := Finset.sum_mul_sq_le_sq_mul_sq (Finset.range xs.length)
    (fun i => xs.getD i 0) (fun i => ys.getD i 0)
  simpa [pow_two] using this

theorem varRaw_nonneg (l : List ℚ) : 0 ≤ varRaw l := dot_self_nonneg (centered l)

theorem length_centered (l : List ℚ) : (centered l).length = l.length := by
  simp [centered]

theorem covRaw_sq_le (ps : List (ℚ × ℚ)) :
    covRaw ps ^ 2 ≤ varRaw (ps.map Prod.fst) * varRaw (ps.map Prod.snd) := by
  unfold covRaw varRaw
  exact dot_sq_le _ _ (by simp [length_centered])

theorem pairedObs_swap (xs ys : List (Option ℚ)) :
    pairedObs ys xs = (pairedObs xs ys).map Prod.swap := by
  unfold pairedObs
  rw [← List.zip_swap xs ys, List.filterMap_map, List.map_filterMap]
  apply List.filterMap_congr
  intro p _
  obtain ⟨u, v⟩ := p
  cases u <;> cases v <;> rfl

theorem corrQ_symm (xs ys : List (Option ℚ)) : corrQ ys xs = corrQ xs ys := by
  unfold corrQ
  rw [pairedObs_swap xs ys]
  simp only [List.map_map]
  have hfst : (Prod.fst ∘ Prod.swap : ℚ × ℚ → ℚ) = Prod.snd := rfl
  have hsnd : (Prod.snd ∘ Prod.swap : ℚ × ℚ → ℚ) = Prod.fst := rfl
  rw [hfst, hsnd]
  have hcov : covRaw ((pairedObs xs ys).map Prod.swap) = covRaw (pairedObs xs ys) := by
    unfold covRaw
    simp only [List.map_map, hfst, hsnd]
    exact dot_comm _ _
  rw [hcov]
  by_cases h1 : varRaw ((pairedObs xs ys).map Prod.fst) = 0 <;>
    by_cases h2 : varRaw ((pairedObs xs ys).map Prod.snd) = 0 <;>
      simp [h1, h2, mul_comm]

theorem corrEntry_symm (df : DataFrame) (a b : String) :
    corrEntry df a b = corrEntry df b a := by
  unfold corrEntry
  exact (corrQ_symm _ _).symm

theorem corrQ_eq_some (xs ys : List (Option ℚ)) (c : CorrVal)
    (h : corrQ xs ys = some c) :
    0 < c.vprod ∧ c.cov ^ 2 ≤ c.vprod := by
  unfold corrQ at h
  set ps := pairedObs xs ys with hps
  by_cases hz : varRaw (ps.map Prod.fst) = 0 ∨ varRaw (ps.map Prod.snd) = 0
  · simp [hz] at h
  · push_neg at hz
    simp only [if_neg (by tauto : ¬(varRaw (ps.map Prod.fst) = 0 ∨
      varRaw (ps.map Prod.snd) = 0)), Option.some.injEq] at h
    have hx := lt_of_le_of_ne (varRaw_nonneg (ps.map Prod.fst)) (Ne.symm hz.1)
    have hy := lt_of_le_of_ne (varRaw_nonneg (ps.map Prod.snd)) (Ne.symm hz.2)
    constructor
    · rw [← h]
      exact mul_pos hx hy
    · rw [← h]
      exact covRaw_sq_le ps

theorem pairedObs_self (xs : List (Option ℚ)) :
    pairedObs xs xs = (xs.filterMap id).map (fun a => (a, a)) := by
  rw [List.map_filterMap]
  induction xs with
  | nil => rfl
  | cons x xs ih =>
    cases x with
    | none => simpa [pairedObs] using ih
    | some a => simpa [pairedObs] using ih

theorem covRaw_self (l : List ℚ) :
    covRaw (l.map fun a => (a, a)) = varRaw l := by
  unfold covRaw varRaw
  simp only [List.map_map]
  have h1 : (Prod.fst ∘ fun a : ℚ => (a, a)) = id := rfl
  have h2 : (Prod.snd ∘ fun a : ℚ => (a, a)) = id := rfl
  rw [h1, h2, List.map_id]

theorem corrQ_self (xs : List (Option ℚ)) (h : varRaw (xs.filterMap id) ≠ 0) :
    corrQ xs xs = some ⟨varRaw (xs.filterMap id),
      varRaw (xs.filterMap id) * varRaw (xs.filterMap id)⟩ := by
  unfold corrQ
  rw [pairedObs_self]
  simp only [List.map_map]
  have h1 : (Prod.fst ∘ fun a : ℚ => (a, a)) = id := rfl
  have h2 : (Prod.snd ∘ fun a : ℚ => (a, a)) = id := rfl
  rw [h1, h2, List.map_id, covRaw_self]
  simp [h]

theorem corrVal_sq (c : CorrVal) (hv : 0 < c.vprod) :
    c.val ^ 2 = (c.cov : ℝ) ^ 2 / (c.vprod : ℝ) := by
  unfold CorrVal.val
  rw [div_pow, Real.sq_sqrt (by exact_mod_cast hv.le)]

theorem corrVal_neg_iff (c : CorrVal) (hv : 0 < c.vprod) :
    c.val < 0 ↔ c.cov < 0 := by
  unfold CorrVal.val
  have hs : 0 < Real.sqrt (c.vprod : ℝ) := Real.sqrt_pos.2 (by exact_mod_cast hv)
  rw [div_neg_iff]
  constructor
  · rintro (⟨_, h2⟩ | ⟨h1, _⟩)
    · exact absurd h2 (not_lt.2 hs.le)
    · exact_mod_cast h1
  · intro h
    exact Or.inr ⟨by exact_mod_cast h, hs⟩

theorem corrKey_cast (c : CorrVal) (hv : 0 < c.vprod) :
    (c.key : ℝ) = if c.val < 0 then -(c.val ^ 2) else c.val ^ 2 := by
  unfold CorrVal.key
  by_cases h : c.cov < 0
  · rw [if_pos h, if_pos ((corrVal_neg_iff c hv).2 h), corrVal_sq c hv]
    push_cast
    ring
  · rw [if_neg h, if_neg (fun hc => h ((corrVal_neg_iff c hv).1 hc)), corrVal_sq c hv]
    push_cast
    ring

theorem sgnSq_le_iff (x y : ℝ) :
    (if x < 0 then -(x ^ 2) else x ^ 2) ≤ (if y < 0 then -(y ^ 2) else y ^ 2) ↔
      x ≤ y := by
  rcases lt_or_le x 0 with hx | hx <;> rcases lt_or_le y 0 with hy | hy
  · rw [if_pos hx, if_pos hy, neg_le_neg_iff]
    constructor
    · intro h
      nlinarith
    · intro h
      nlinarith
  · rw [if_pos hx, if_neg (not_lt.2 hy)]
    constructor
    · intro _
      linarith
    · intro _
      nlinarith [sq_nonneg x, sq_nonneg y]
  · rw [if_neg (not_lt.2 hx), if_pos hy]
    constructor
    · intro h
      nlinarith [sq_nonneg x, sq_nonneg y]
    · intro h
      linarith
  · rw [if_neg (not_lt.2 hx), if_neg (not_lt.2 hy)]
    exact pow_le_pow_iff_left₀ hx hy (by norm_num)

theorem corrKey_le_iff (a b : CorrVal) (ha : 0 < a.vprod) (hb : 0 < b.vprod) :
    a.key ≤ b.key ↔ a.val ≤ b.val := by
  rw [← Rat.cast_le (K := ℝ), corrKey_cast a ha, corrKey_cast b hb, sgnSq_le_iff]

theorem corrVal_abs_le_one (c : CorrVal) (hv : 0 < c.vprod)
    (hc : c.cov ^ 2 ≤ c.vprod) : |c.val| ≤ 1 := by
  unfold CorrVal.val
  rw [abs_div, abs_of_nonneg (Real.sqrt_nonneg _)]
  have hs : 0 < Real.sqrt (c.vprod : ℝ) := Real.sqrt_pos.2 (by exact_mod_cast hv)
  rw [div_le_one hs]
  rw [show |(c.cov : ℝ)| = Real.sqrt ((c.cov : ℝ) ^ 2) from (Real.sqrt_sq_eq_abs _).symm]
  exact Real.sqrt_le_sqrt (by exact_mod_cast hc)

theorem corrVal_self (v : ℚ) (hv : 0 < v) : CorrVal.val ⟨v, v * v⟩ = 1 := by
  unfold CorrVal.val
  rw [show ((v * v : ℚ) : ℝ) = (v : ℝ) ^ 2 by push_cast; ring,
    Real.sqrt_sq (by exact_mod_cast hv.le)]
  exact div_self (by exact_mod_cast hv.ne')

theorem absBetween_iff (c : CorrVal) (lo : ℚ) (hlo : 0 ≤ lo) (hv : 0 < c.vprod) :
    absBetween c lo = true ↔ (lo : ℝ) < |c.val| ∧ |c.val| < 1 := by
  unfold absBetween CorrVal.val
  rw [Bool.and_eq_true, decide_eq_true_eq, decide_eq_true_eq]
  have hvr : (0 : ℝ) < (c.vprod : ℝ) := by exact_mod_cast hv
  have hs : 0 < Real.sqrt (c.vprod : ℝ) := Real.sqrt_pos.2 hvr
  rw [abs_div, abs_of_nonneg (Real.sqrt_nonneg _)]
  have h1 : (lo : ℝ) < |(c.cov : ℝ)| / Real.sqrt (c.vprod : ℝ) ↔
      lo ^ 2 * c.vprod < c.cov ^ 2 := by
    rw [lt_div_iff₀ hs]
    rw [← pow_lt_pow_iff_left₀ (mul_nonneg (by exact_mod_cast hlo) hs.le)
      (abs_nonneg _) (two_ne_zero), mul_pow, Real.sq_sqrt hvr.le, sq_abs]
    constructor
    · intro h
      exact_mod_cast h
    · intro h
      exact_mod_cast h
  have h2 : |(c.cov : ℝ)| / Real.sqrt (c.vprod : ℝ) < 1 ↔ c.cov ^ 2 < c.vprod := by
    rw [div_lt_one hs, Real.lt_sqrt (abs_nonneg _), sq_abs]
    constructor
    · intro h
      exact_mod_cast h
    · intro h
      exact_mod_cast h
  rw [h1, h2]

theorem mem_selectDtypes {df : DataFrame} {ds : List Dtype} {x : String} :
    x ∈ selectDtypes df ds ↔ ∃ c ∈ df.cols, c.name = x ∧ c.dtype ∈ ds := by
  simp only [selectDtypes, List.mem_map, List.mem_filter, decide_eq_true_eq]
  constructor
  · rintro ⟨c, ⟨hc, hd⟩, hn⟩
    exact ⟨c, hc, hn, hd⟩
  · rintro ⟨c, hc, hn, hd⟩
    exact ⟨c, ⟨hc, hd⟩, hn⟩

theorem numFeatures_subset (df : DataFrame) (t : String) :
    ∀ x ∈ numFeatures df t, x ∈ allNum df := by
  intro x hx
  unfold numFeatures at hx
  split at hx
  · exact List.mem_of_mem_filter hx
  · exact hx

theorem catFeatures_subset (df : DataFrame) (t : String) :
    ∀ x ∈ catFeatures df t, x ∈ allCat df := by
  intro x hx
  unfold catFeatures at hx
  split at hx
  · exact List.mem_of_mem_filter hx
  · exact hx

theorem col_unique {df : DataFrame} (hN : df.names.Nodup) {c1 c2 : Col}
    (h1 : c1 ∈ df.cols) (h2 : c2 ∈ df.cols) (h : c1.name = c2.name) : c1 = c2 :=
  List.inj_on_of_nodup_map hN h1 h2 h

/-- C2: for every dataset and every choice of target column, the schema
classification of lines 27-31 yields feature sets with
`numeric_features ∩ categorical_features = ∅` (given the unique-column-name
invariant of a dataframe) and with the target a member of neither set. -/
theorem C2_partition_disjoint_target_free (df : DataFrame) (t : String)
    (hN : df.names.Nodup) :
    (∀ x ∈ numFeatures df t, x ∉ catFeatures df t) ∧
      t ∉ numFeatures df t ∧ t ∉ catFeatures df t := by
  refine ⟨?_, ?_, ?_⟩
  · intro x hx hc
    obtain ⟨c1, hc1, hn1, hd1⟩ := mem_selectDtypes.1 (numFeatures_subset df t x hx)
    obtain ⟨c2, hc2, hn2, hd2⟩ := mem_selectDtypes.1 (catFeatures_subset df t x hc)
    have : c1 = c2 := col_unique hN hc1 hc2 (hn1.trans hn2.symm)
    subst this
    rcases c1 with ⟨n1, d1, v1⟩
    cases d1 <;> simp [numberDtypes] at hd1 hd2
  · by_cases h : t ∈ allNum df
    · simp [numFeatures, h, List.mem_filter]
    · simp [numFeatures, h]
  · by_cases h : t ∈ allCat df
    · simp [catFeatures, h, List.mem_filter]
    · simp [catFeatures, h]

/-- C8: with fewer than 2 numeric features the multicollinearity block of
lines 177-178 returns the explicit insufficient-features signal, and the rest
of the tab (the top-K ranking) is computed exactly as it would be on its own. -/
theorem C8_insufficient_features (df : DataFrame) (t : String) (k : ℕ)
    (h : (numFeatures df t).length < 2) :
    (tab4 df t k).redundancy = RedundancyResult.insufficientFeatures ∧
      (tab4 df t k).topK = topKCorr df t k := by
  constructor
  · simp [tab4, findRedundantPairs, h]
  · rfl

/-- C10: in the categorical-target branch, line 291 offers exactly the
object/category columns minus the target when the target itself has
object/category dtype, and raises (`none`) for any other target dtype,
e.g. datetime. -/
theorem C10_cat_for_class (df : DataFrame) (t : String) (hN : df.names.Nodup) :
    ((df.dtypeOf t = some Dtype.object ∨ df.dtypeOf t = some Dtype.category) →
      catForClass df t = some ((allCat df).filter (fun c => c ≠ t))) ∧
    (∀ d, df.dtypeOf t = some d → isNumericDtype d = false →
      d ≠ Dtype.object → d ≠ Dtype.category → catForClass df t = none) := by
  constructor
  · intro h
    have hmem : t ∈ allCat df := by
      have : ∃ d, df.dtypeOf t = some d ∧ (d = Dtype.object ∨ d = Dtype.category) := by
        rcases h with h | h
        · exact ⟨Dtype.object, h, Or.inl rfl⟩
        · exact ⟨Dtype.category, h, Or.inr rfl⟩
      obtain ⟨d, hd, hdc⟩ := this
      unfold DataFrame.dtypeOf at hd
      rcases hf : df.cols.find? (fun c => c.name = t) with _ | c
      · rw [hf] at hd
        cases hd
      · rw [hf] at hd
        simp at hd
        have hc : c ∈ df.cols := List.mem_of_find?_eq_some hf
        have hn : c.name = t := by
          have := List.find?_some hf
          simpa using this
        refine mem_selectDtypes.2 ⟨c, hc, hn, ?_⟩
        rw [hd]
        rcases hdc with h' | h' <;> simp [h']
    unfold catForClass indexDrop
    rw [if_pos hmem]
  · intro d hd _ hobj hcat
    have hmem : t ∉ allCat df := by
      intro hmem
      obtain ⟨c2, hc2, hn2, hd2⟩ := mem_selectDtypes.1 hmem
      unfold DataFrame.dtypeOf at hd
      rcases hf : df.cols.find? (fun c => c.name = t) with _ | c1
      · rw [hf] at hd
        cases hd
      · rw [hf] at hd
        simp at hd
        have hc1 : c1 ∈ df.cols := List.mem_of_find?_eq_some hf
        have hn1 : c1.name = t := by
          have := List.find?_some hf
          simpa using this
        have : c1 = c2 := col_unique hN hc1 hc2 (hn1.trans hn2.symm)
        subst this
        rw [hd] at hd2
        simp only [List.mem_cons, List.mem_singleton] at hd2
        rcases hd2 with h' | h' | h'
        · exact hobj h'
        · exact hcat h'
        · cases h'
    unfold catForClass indexDrop
    rw [if_neg hmem]

/-- C6: over the numeric features, the correlation matrix of lines 35-37 and
180 is symmetric, every defined coefficient lies in `[-1, 1]`, and the
diagonal entry of every non-constant column is a defined coefficient equal
to `1`. -/
theorem C6_corr_matrix (df : DataFrame) (t : String) (a b : String)
    (ha : a ∈ numFeatures df t) (hb : b ∈ numFeatures df t) :
    corrEntry df a b = corrEntry df b a ∧
    (∀ c, corrEntry df a b = some c → -1 ≤ c.val ∧ c.val ≤ 1) ∧
    (varRaw ((df.numCol a).filterMap id) ≠ 0 →
      ∃ c, corrEntry df a a = some c ∧ c.val = 1) := by
  refine ⟨corrEntry_symm df a b, ?_, ?_⟩
  · intro c hc
    obtain ⟨hv, hsq⟩ := corrQ_eq_some _ _ c hc
    exact abs_le.1 (corrVal_abs_le_one c hv hsq)
  · intro h
    refine ⟨⟨varRaw ((df.numCol a).filterMap id),
      varRaw ((df.numCol a).filterMap id) * varRaw ((df.numCol a).filterMap id)⟩,
      corrQ_self _ h, ?_⟩
    exact corrVal_self _ (lt_of_le_of_ne (varRaw_nonneg _) (Ne.symm h))

theorem selectDtypes_nodup {df : DataFrame} (hN : df.names.Nodup) (ds : List Dtype) :
    (selectDtypes df ds).Nodup :=
  List.Nodup.sublist (List.Sublist.map Col.name (List.filter_sublist df.cols)) hN

/-- C4 (amended): when the target itself has dtype `int64`/`float64`, the
top-K ranking of lines 137-143 has length `min k n` where `n` counts the
`int64`/`float64` columns other than the target (not the schema classifier's
`numeric_features`), and for `k ≥ n` it lists each such column exactly once. -/
theorem C4_topk_length_once (df : DataFrame) (t : String) (k : ℕ)
    (hN : df.names.Nodup)
    (ht : t ∈ selectDtypes df [Dtype.int64, Dtype.float64]) :
    ∃ l, topKCorr df t k = some l ∧
      l.length = min k (((selectDtypes df [Dtype.int64, Dtype.float64]).filter
        (fun c => c ≠ t)).length) ∧
      ((((selectDtypes df [Dtype.int64, Dtype.float64]).filter
          (fun c => c ≠ t)).length ≤ k) →
        ∀ f ∈ (selectDtypes df [Dtype.int64, Dtype.float64]).filter (fun c => c ≠ t),
          (l.map Prod.fst).count f = 1) := by
  refine ⟨(List.insertionSort entryDesc
    (((selectDtypes df [Dtype.int64, Dtype.float64]).filter (fun c => c ≠ t)).map
      (fun f => (f, corrEntry df f t)))).take k, ?_, ?_, ?_⟩
  · unfold topKCorr
    rw [if_pos ht]
  · rw [List.length_take, List.length_insertionSort, List.length_map]
  · intro hk f hf
    rw [List.take_of_length_le (by rw [List.length_insertionSort, List.length_map]; exact hk)]
    have hperm := (List.perm_insertionSort entryDesc
      (((selectDtypes df [Dtype.int64, Dtype.float64]).filter (fun c => c ≠ t)).map
        (fun f => (f, corrEntry df f t)))).map Prod.fst
    rw [List.Perm.count_eq hperm]
    have hid : (((selectDtypes df [Dtype.int64, Dtype.float64]).filter
        (fun c => c ≠ t)).map (fun f => (f, corrEntry df f t))).map Prod.fst =
        (selectDtypes df [Dtype.int64, Dtype.float64]).filter (fun c => c ≠ t) := by
      rw [List.map_map]
      exact List.map_id _
    rw [hid]
    exact List.count_eq_one_of_mem
      (List.Nodup.filter _ (selectDtypes_nodup hN _)) hf

/-- C4 (counterexample): on a frame with an `int64` target, an `int64` feature
and an `int32` feature, the schema classifier reports two numeric features but
the top-K request with `k = 2` returns a single row, omitting the `int32`
feature entirely. -/
theorem C4_topk_counterexample :
    (numFeatures dfMixed "t").length = 2 ∧
      ∃ l, topKCorr dfMixed "t" 2 = some l ∧ l.length = 1 ∧
        "b" ∈ numFeatures dfMixed "t" ∧ "b" ∉ l.map Prod.fst := by
  refine ⟨by decide, [("a", corrEntry dfMixed "a" "t")], ?_, rfl, by decide, by simp⟩
  simp [topKCorr, selectDtypes, dfMixed, List.insertionSort]

theorem perm_pair_cases {α : Type} {l : List α} {x y : α} (h : l.Perm [x, y]) :
    l = [x, y] ∨ l = [y, x] := by
  have hx : x ∈ l := h.mem_iff.2 (by simp)
  have hlen : l.length = 2 := by simpa using h.length_eq
  rcases l with _ | ⟨a, _ | ⟨b, _ | ⟨c, l⟩⟩⟩ <;> simp at hlen
  have ha : a = x ∨ a = y := by
    have : a ∈ [x, y] := h.mem_iff.1 (show a ∈ [a, b] by simp)
    simpa using this
  rcases ha with h1 | h1
  · left
    rw [h1] at h ⊢
    have hb : b = y := by simpa using List.perm_singleton.1 h.cons_inv
    rw [hb]
  · right
    rw [h1] at h ⊢
    have h2 : (y :: [b]).Perm (y :: [x]) := h.trans (List.Perm.swap y x [])
    have hb : b = x := by simpa using List.perm_singleton.1 h2.cons_inv
    rw [hb]

/-- C3: the top-K ranking of lines 137-143 sorts by descending signed
coefficient: with exactly two ranked features, one with negative correlation
and one with positive correlation of smaller magnitude, `k = 1` returns the
positive one. -/
theorem C3_signed_descending (df : DataFrame) (t f1 f2 : String) (c1 c2 : CorrVal)
    (hf : (selectDtypes df [Dtype.int64, Dtype.float64]).filter (fun c => c ≠ t) = [f1, f2])
    (ht : t ∈ selectDtypes df [Dtype.int64, Dtype.float64])
    (h1 : corrEntry df f1 t = some c1) (h2 : corrEntry df f2 t = some c2)
    (hv1 : 0 < c1.vprod) (hv2 : 0 < c2.vprod)
    (hneg : c1.val < 0) (hpos : 0 < c2.val) (hmag : c2.val < -c1.val) :
    topKCorr df t 1 = some [(f2, some c2)] := by
  unfold topKCorr
  rw [if_pos ht, hf]
  simp only [List.map_cons, List.map_nil, h1, h2]
  have hp := List.perm_insertionSort entryDesc [(f1, some c1), (f2, some c2)]
  rcases perm_pair_cases hp with hs | hs
  · exfalso
    have hsort := List.sorted_insertionSort entryDesc [(f1, some c1), (f2, some c2)]
    rw [hs] at hsort
    have hle : entryDesc (f1, some c1) (f2, some c2) :=
      (List.pairwise_cons.1 hsort).1 _ (by simp)
    have hk : c2.key ≤ c1.key := by
      simp only [entryDesc, optKey] at hle
      exact_mod_cast hle
    have hval : c2.val ≤ c1.val := (corrKey_le_iff c2 c1 hv2 hv1).1 hk
    linarith
  · rw [hs]
    rfl

theorem mem_highCorrStack {df : DataFrame} {feats : List String} {a b : String}
    {c : CorrVal} :
    (a, b, c) ∈ highCorrStack df feats ↔
      a ∈ feats ∧ b ∈ feats ∧ corrEntry df a b = some c ∧
        absBetween c (8/10) = true := by
  unfold highCorrStack
  rw [List.mem_flatMap]
  constructor
  · rintro ⟨a', ha', hmem⟩
    rw [List.mem_filterMap] at hmem
    obtain ⟨b', hb', heq⟩ := hmem
    rcases hc : corrEntry df a' b' with _ | c'
    · simp only [hc] at heq
      cases heq
    · simp only [hc] at heq
      by_cases habs : absBetween c' (8/10)
      · rw [if_pos habs] at heq
        obtain ⟨rfl, rfl, rfl⟩ : a' = a ∧ b' = b ∧ c' = c := by
          simpa using heq
        exact ⟨ha', hb', hc, habs⟩
      · rw [if_neg habs] at heq
        cases heq
  · rintro ⟨ha, hb, hc, habs⟩
    refine ⟨a, ha, List.mem_filterMap.2 ⟨b, hb, ?_⟩⟩
    simp [hc, habs]

theorem corrQ_self_vprod {xs : List (Option ℚ)} {c : CorrVal}
    (h : corrQ xs xs = some c) : c.vprod = c.cov ^ 2 := by
  by_cases hv : varRaw (xs.filterMap id) = 0
  · exfalso
    unfold corrQ at h
    rw [pairedObs_self] at h
    simp only [List.map_map] at h
    have h1 : (Prod.fst ∘ fun a : ℚ => (a, a)) = id := rfl
    have h2 : (Prod.snd ∘ fun a : ℚ => (a, a)) = id := rfl
    rw [h1, h2, List.map_id] at h
    rw [if_pos (Or.inl hv)] at h
    cases h
  · rw [corrQ_self xs hv] at h
    have hc := Option.some.inj h
    rw [← hc]
    simp [pow_two]

/-- C1 (amended): every entry surfaced by the multicollinearity block of
lines 180-188 has absolute correlation strictly between the 0.8 threshold and
1.0 and joins two distinct features, but each qualifying unordered pair
appears twice, once in each orientation (`stack` keeps both halves of the
symmetric matrix), not at most once. -/
theorem C1_redundant_pairs (df : DataFrame) (t : String)
    (l : List (String × String × CorrVal))
    (hres : findRedundantPairs df t = RedundancyResult.pairs l)
    (a b : String) (c : CorrVal) (hm : (a, b, c) ∈ l) :
    ((4/5 : ℝ) < |c.val| ∧ |c.val| < 1) ∧ a ≠ b ∧ (b, a, c) ∈ l := by
  unfold findRedundantPairs at hres
  by_cases hlen : (numFeatures df t).length < 2
  · rw [if_pos hlen] at hres
    cases hres
  · rw [if_neg hlen] at hres
    have hl : List.insertionSort absDesc (highCorrStack df (numFeatures df t)) = l := by
      injection hres
    subst hl
    have hstack : (a, b, c) ∈ highCorrStack df (numFeatures df t) :=
      (List.perm_insertionSort absDesc _).mem_iff.1 hm
    obtain ⟨hafeats, hbfeats, hcorr, habs⟩ := mem_highCorrStack.1 hstack
    obtain ⟨hv, _⟩ := corrQ_eq_some _ _ c hcorr
    have hbridge := (absBetween_iff c (8/10) (by norm_num) hv).1 habs
    refine ⟨⟨?_, hbridge.2⟩, ?_, ?_⟩
    · have h45 := hbridge.1
      norm_num at h45
      exact h45
    · intro hab
      subst hab
      have hself := corrQ_self_vprod hcorr
      unfold absBetween at habs
      rw [hself] at habs
      simp at habs
    · refine (List.perm_insertionSort absDesc _).mem_iff.2
        (mem_highCorrStack.2 ⟨hbfeats, hafeats, ?_, habs⟩)
      rw [corrEntry_symm df b a]
      exact hcorr

theorem list_sum_map_add {α : Type} (ks : List α) (f g : α → ℕ) :
    (ks.map (fun c => f c + g c)).sum = (ks.map f).sum + (ks.map g).sum := by
  induction ks with
  | nil => simp
  | cons k ks ih =>
    simp only [List.map_cons, List.sum_cons, ih]
    omega

theorem sum_indicator_one {α : Type} [DecidableEq α] (ks : List α) (a : α)
    (hk : ks.Nodup) (ha : a ∈ ks) :
    (ks.map (fun c => if a = c then 1 else 0)).sum = 1 := by
  induction ks with
  | nil => cases ha
  | cons k ks ih =>
    rcases List.mem_cons.1 ha with rfl | hmem
    · have hz : ∀ c ∈ ks, (if a = c then 1 else 0) = 0 := by
        intro c hc
        apply if_neg
        intro h
        exact (List.nodup_cons.1 hk).1 (by rw [h]; exact hc)
      simp only [List.map_cons, List.sum_cons, if_pos rfl]
      rw [List.map_congr_left hz]
      simp
    · have hak : a ≠ k := by
        intro h
        rw [h] at hmem
        exact (List.nodup_cons.1 hk).1 hmem
      simp only [List.map_cons, List.sum_cons, if_neg hak,
        ih (List.nodup_cons.1 hk).2 hmem]

theorem length_partition (l : List (ℕ × ℕ)) (ks : List ℕ) (hk : ks.Nodup)
    (hcov : ∀ p ∈ l, p.2 ∈ ks) :
    (ks.map (fun c => (l.filter (fun p => p.2 = c)).length)).sum = l.length := by
  induction l with
  | nil => simp
  | cons p t ih =>
    have hstep : ∀ c ∈ ks, ((p :: t).filter (fun q => q.2 = c)).length =
        (t.filter (fun q => q.2 = c)).length + (if p.2 = c then 1 else 0) := by
      intro c _
      by_cases h : p.2 = c
      · simp [List.filter_cons, h]
      · simp [List.filter_cons, h]
    rw [List.map_congr_left hstep, list_sum_map_add,
      ih (fun q hq => hcov q (List.mem_cons_of_mem p hq)),
      sum_indicator_one ks p.2 hk (hcov p (by simp))]
    simp

theorem sum_map_div (ks : List ℕ) (f : ℕ → ℚ) (T : ℚ) :
    (ks.map (fun c => f c / T)).sum = (ks.map f).sum / T := by
  induction ks with
  | nil => simp
  | cons k ks ih => simp [ih, add_div]

/-- C5: the row-normalized crosstab of line 295 has every row summing to `1`
across the target classes (exactly, in the rational model), and its rows are
sorted ascending by category label. -/
theorem C5_crosstab_rows (df : DataFrame) (f t : String) :
    (∀ r row, (r, row) ∈ crosstabDF df f t → (row.map Prod.snd).sum = 1) ∧
      List.Pairwise (fun p q : ℕ × List (ℕ × ℚ) => p.1 ≤ q.1) (crosstabDF df f t) := by
  constructor
  · intro r row hmem
    unfold crosstabDF crosstab at hmem
    rw [List.mem_map] at hmem
    obtain ⟨r', hr', heq⟩ := hmem
    obtain ⟨rfl, hrow⟩ : r' = r ∧ row = (List.insertionSort labelLe
        ((crossPairs (df.catCol f) (df.catCol t)).map Prod.snd).dedup).map
        (fun c => (c, (((crossPairs (df.catCol f) (df.catCol t)).filter
          (fun p => p.1 = r' ∧ p.2 = c)).length : ℚ) /
          (((crossPairs (df.catCol f) (df.catCol t)).filter
            (fun p => p.1 = r')).length : ℚ))) := by
      constructor
      · exact (Prod.mk.injEq _ _ _ _ ▸ heq).1
      · exact ((Prod.mk.injEq _ _ _ _ ▸ heq).2).symm
    subst hrow
    rw [List.map_map]
    have hsimp : ((fun p : ℕ × ℚ => p.2) ∘ fun c => (c,
        (((crossPairs (df.catCol f) (df.catCol t)).filter
          (fun p => p.1 = r' ∧ p.2 = c)).length : ℚ) /
        (((crossPairs (df.catCol f) (df.catCol t)).filter
          (fun p => p.1 = r')).length : ℚ))) = fun c =>
        (((crossPairs (df.catCol f) (df.catCol t)).filter
          (fun p => p.1 = r' ∧ p.2 = c)).length : ℚ) /
        (((crossPairs (df.catCol f) (df.catCol t)).filter
          (fun p => p.1 = r')).length : ℚ) := rfl
    rw [hsimp]
    set ps := crossPairs (df.catCol f) (df.catCol t) with hps
    set colsK := List.insertionSort labelLe (ps.map Prod.snd).dedup with hcolsK
    have hfilter : ∀ c, ps.filter (fun p => p.1 = r' ∧ p.2 = c) =
        (ps.filter (fun p => p.1 = r')).filter (fun p => p.2 = c) := by
      intro c
      rw [List.filter_filter]
      apply List.filter_congr
      intro a _
      by_cases h1 : a.1 = r' <;> by_cases h2 : a.2 = c <;> simp [h1, h2]
    have hcongr : ∀ c ∈ colsK, ((ps.filter (fun p => p.1 = r' ∧ p.2 = c)).length : ℚ) /
        ((ps.filter (fun p => p.1 = r')).length : ℚ) =
        (((ps.filter (fun p => p.1 = r')).filter (fun p => p.2 = c)).length : ℚ) /
        ((ps.filter (fun p => p.1 = r')).length : ℚ) := by
      intro c _
      rw [hfilter c]
    rw [List.map_congr_left hcongr, sum_map_div]
    have hcount : ((colsK.map (fun c =>
        (((ps.filter (fun p => p.1 = r')).filter (fun p => p.2 = c)).length : ℚ))).sum) =
        (((ps.filter (fun p => p.1 = r')).length : ℕ) : ℚ) := by
      rw [← length_partition (ps.filter (fun p => p.1 = r')) colsK ?nodup ?cov]
      · rw [Nat.cast_list_sum, List.map_map]
        rfl
      case nodup =>
        exact ((List.perm_insertionSort labelLe _).nodup_iff).2 (List.nodup_dedup _)
      case cov =>
        intro p hp
        rw [hcolsK, (List.perm_insertionSort labelLe _).mem_iff, List.mem_dedup]
        exact List.mem_map_of_mem Prod.snd (List.mem_of_mem_filter hp)
    rw [hcount]
    have hTpos : 0 < (ps.filter (fun p => p.1 = r')).length := by
      have hr'' : r' ∈ (ps.map Prod.fst).dedup :=
        ((List.perm_insertionSort labelLe _).mem_iff).1 hr'
      rw [List.mem_dedup, List.mem_map] at hr''
      obtain ⟨p, hp, hpr⟩ := hr''
      have : p ∈ ps.filter (fun q => q.1 = r') :=
        List.mem_filter.2 ⟨hp, by simp [hpr]⟩
      exact List.length_pos.2 (List.ne_nil_of_mem this)
    exact div_self (by exact_mod_cast hTpos.ne')
  · unfold crosstabDF crosstab
    refine List.Pairwise.map _ ?_ (List.sorted_insertionSort labelLe _)
    intro a b hab
    exact hab

theorem mem_groupKeys {xs : List (Option ℕ)} {k : ℕ} :
    k ∈ groupKeys xs ↔ k ∈ xs.filterMap id := by
  unfold groupKeys
  rw [(List.perm_insertionSort labelLe _).mem_iff, List.mem_dedup]

theorem groupKeys_nodup (xs : List (Option ℕ)) : (groupKeys xs).Nodup := by
  unfold groupKeys
  exact ((List.perm_insertionSort labelLe _).nodup_iff).2 (List.nodup_dedup _)

theorem mem_groupStats {df : DataFrame} {f t : String} {k : ℕ} {g : GroupStats} :
    (k, g) ∈ groupStats df f t ↔
      k ∈ groupKeys (df.catCol f) ∧
        g = mkStats (groupVals (df.catCol f) (df.numCol t) k) := by
  unfold groupStats
  rw [(List.perm_insertionSort statsAsc _).mem_iff, List.mem_map]
  constructor
  · rintro ⟨k', hk', heq⟩
    have h1 : k' = k := (Prod.mk.injEq _ _ _ _ ▸ heq).1
    have h2 := (Prod.mk.injEq _ _ _ _ ▸ heq).2
    subst h1
    exact ⟨hk', h2.symm⟩
  · rintro ⟨hk, rfl⟩
    exact ⟨k, hk, rfl⟩

/-- C7: a category group with exactly one observation appears in the grouped
stability table of lines 212-213 with count `1` and an undefined (`NaN`)
standard deviation; the aggregation is total and never raises. -/
theorem C7_singleton_group (df : DataFrame) (f t : String) (k : ℕ)
    (h : (groupVals (df.catCol f) (df.numCol t) k).length = 1) :
    ∃ g, (k, g) ∈ groupStats df f t ∧ g.count = 1 ∧ g.svar = none ∧
      g.std = none := by
  have hne : groupVals (df.catCol f) (df.numCol t) k ≠ [] := by
    intro h0
    rw [h0] at h
    cases h
  obtain ⟨v, hv⟩ := List.exists_mem_of_ne_nil _ hne
  unfold groupVals at hv
  rw [List.mem_filterMap] at hv
  obtain ⟨p, hp, hpe⟩ := hv
  obtain ⟨u, w⟩ := p
  have hk : k ∈ groupKeys (df.catCol f) := by
    rcases u with _ | a
    · cases hpe
    · rcases w with _ | q
      · cases hpe
      · have hpe' : (if a = k then some q else none) = some v := hpe
        by_cases hak : a = k
        · subst hak
          refine mem_groupKeys.2 (List.mem_filterMap.2 ⟨some a, ?_, rfl⟩)
          exact (List.of_mem_zip hp).1
        · rw [if_neg hak] at hpe'
          cases hpe'
  refine ⟨mkStats (groupVals (df.catCol f) (df.numCol t) k),
    mem_groupStats.2 ⟨hk, rfl⟩, ?_, ?_, ?_⟩
  · exact h
  · simp [mkStats, h]
  · simp [GroupStats.std, mkStats, h]

/-- C9: the grouped impact table of lines 212-213 has exactly one row per
distinct observed category, each row holding the median, sample dispersion and
count of that category's target values, and its rows are sorted ascending by
median (undefined medians last). -/
theorem C9_grouped_stats (df : DataFrame) (f t : String) :
    (∀ k, k ∈ (groupStats df f t).map Prod.fst ↔ k ∈ (df.catCol f).filterMap id) ∧
    ((groupStats df f t).map Prod.fst).Nodup ∧
    (∀ k g, (k, g) ∈ groupStats df f t →
      g.median = medianQ (groupVals (df.catCol f) (df.numCol t) k) ∧
      g.count = (groupVals (df.catCol f) (df.numCol t) k).length ∧
      g.svar = (if (groupVals (df.catCol f) (df.numCol t) k).length ≤ 1 then none
        else some (varRaw (groupVals (df.catCol f) (df.numCol t) k) /
          (((groupVals (df.catCol f) (df.numCol t) k).length : ℚ) - 1)))) ∧
    List.Pairwise statsAsc (groupStats df f t) := by
  have hperm : List.Perm ((groupStats df f t).map Prod.fst)
      (groupKeys (df.catCol f)) := by
    unfold groupStats
    have h1 := (List.perm_insertionSort statsAsc
      ((groupKeys (df.catCol f)).map fun k =>
        (k, mkStats (groupVals (df.catCol f) (df.numCol t) k)))).map Prod.fst
    rw [List.map_map] at h1
    have hcomp : (Prod.fst ∘ fun k : ℕ =>
        (k, mkStats (groupVals (df.catCol f) (df.numCol t) k))) = id := rfl
    rw [hcomp, List.map_id] at h1
    exact h1
  refine ⟨?_, ?_, ?_, ?_⟩
  · intro k
    rw [hperm.mem_iff, mem_groupKeys]
  · exact hperm.nodup_iff.2 (groupKeys_nodup _)
  · intro k g hm
    obtain ⟨_, rfl⟩ := mem_groupStats.1 hm
    exact ⟨rfl, rfl, rfl⟩
  · unfold groupStats
    exact List.sorted_insertionSort statsAsc _

/-- C1 (counterexample): on a concrete frame whose features `x`, `y` correlate
at `13/sqrt(175)` in absolute value, the multicollinearity result contains the
pair in both orientations, contradicting "each unordered pair at most once". -/
theorem C1_both_orientations :
    ∃ l, findRedundantPairs dfPair "t" = RedundancyResult.pairs l ∧
      ("x", "y", (⟨13/2, 175/4⟩ : CorrVal)) ∈ l ∧
      ("y", "x", (⟨13/2, 175/4⟩ : CorrVal)) ∈ l := by
  have hxy : corrEntry dfPair "x" "y" = some ⟨13/2, 175/4⟩ := by
    have hx : dfPair.numCol "x" = [some 1, some 2, some 3, some 4] := rfl
    have hy : dfPair.numCol "y" = [some 1, some 2, some 3, some 5] := rfl
    rw [corrEntry, hx, hy]
    simp [corrQ, pairedObs, covRaw, varRaw, centered, listMean, dot]
    norm_num
  have hyx : corrEntry dfPair "y" "x" = some ⟨13/2, 175/4⟩ := by
    rw [corrEntry_symm dfPair "y" "x"]
    exact hxy
  have habs : absBetween ⟨13/2, 175/4⟩ (8/10) = true := by
    unfold absBetween
    simp only [Bool.and_eq_true, decide_eq_true_eq]
    norm_num
  refine ⟨List.insertionSort absDesc (highCorrStack dfPair (numFeatures dfPair "t")),
    ?_, ?_, ?_⟩
  · unfold findRedundantPairs
    rw [if_neg (by decide)]
  · exact (List.perm_insertionSort absDesc _).mem_iff.2
      (mem_highCorrStack.2 ⟨by decide, by decide, hxy, habs⟩)
  · exact (List.perm_insertionSort absDesc _).mem_iff.2
      (mem_highCorrStack.2 ⟨by decide, by decide, hyx, habs⟩)

theorem C1_redundant_pairs_witness :
    ("x" : String) ≠ "y" ∧
      ∃ l, findRedundantPairs dfPair "t" = RedundancyResult.pairs l ∧
        ("y", "x", (⟨13/2, 175/4⟩ : CorrVal)) ∈ l := by
  have hxy : corrEntry dfPair "x" "y" = some ⟨13/2, 175/4⟩ := by
    have hx : dfPair.numCol "x" = [some 1, some 2, some 3, some 4] := rfl
    have hy : dfPair.numCol "y" = [some 1, some 2, some 3, some 5] := rfl
    rw [corrEntry, hx, hy]
    simp [corrQ, pairedObs, covRaw, varRaw, centered, listMean, dot]
    norm_num
  have habs : absBetween ⟨13/2, 175/4⟩ (8/10) = true := by
    unfold absBetween
    simp only [Bool.and_eq_true, decide_eq_true_eq]
    norm_num
  have hres : findRedundantPairs dfPair "t" = RedundancyResult.pairs
      (List.insertionSort absDesc (highCorrStack dfPair (numFeatures dfPair "t"))) := by
    unfold findRedundantPairs
    rw [if_neg (by decide)]
  have hm : ("x", "y", (⟨13/2, 175/4⟩ : CorrVal)) ∈
      List.insertionSort absDesc (highCorrStack dfPair (numFeatures dfPair "t")) :=
    (List.perm_insertionSort absDesc _).mem_iff.2
      (mem_highCorrStack.2 ⟨by decide, by decide, hxy, habs⟩)
  have happ := C1_redundant_pairs dfPair "t" _ hres "x" "y" ⟨13/2, 175/4⟩ hm
  exact ⟨happ.2.1, _, hres, happ.2.2⟩

theorem C2_partition_witness :
    dfGroups.names.Nodup ∧
      ((∀ x ∈ numFeatures dfGroups "p", x ∉ catFeatures dfGroups "p") ∧
        "p" ∉ numFeatures dfGroups "p" ∧ "p" ∉ catFeatures dfGroups "p") :=
  ⟨by decide, C2_partition_disjoint_target_free dfGroups "p" (by decide)⟩

theorem C3_signed_descending_witness :
    CorrVal.val ⟨-2, 4⟩ < 0 ∧ 0 < CorrVal.val ⟨1, 4⟩ ∧
      topKCorr dfSign "t" 1 = some [("b", some ⟨1, 4⟩)] := by
  have hs4 : Real.sqrt ((4 : ℚ) : ℝ) = 2 := by
    rw [show ((4:ℚ):ℝ) = (2:ℝ)^2 by norm_num]
    exact Real.sqrt_sq (by norm_num)
  have hval1 : CorrVal.val ⟨-2, 4⟩ = -1 := by
    show ((-2 : ℚ) : ℝ) / Real.sqrt ((4 : ℚ) : ℝ) = -1
    rw [hs4]
    norm_num
  have hval2 : CorrVal.val ⟨1, 4⟩ = 1/2 := by
    show ((1 : ℚ) : ℝ) / Real.sqrt ((4 : ℚ) : ℝ) = 1/2
    rw [hs4]
    norm_num
  have h1 : corrEntry dfSign "a" "t" = some ⟨-2, 4⟩ := by
    have ha : dfSign.numCol "a" = [some 0, some (-1), some (-2)] := rfl
    have ht : dfSign.numCol "t" = [some 0, some 1, some 2] := rfl
    rw [corrEntry, ha, ht]
    simp [corrQ, pairedObs, covRaw, varRaw, centered, listMean, dot]
    norm_num
  have h2 : corrEntry dfSign "b" "t" = some ⟨1, 4⟩ := by
    have hb : dfSign.numCol "b" = [some 0, some (-1), some 1] := rfl
    have ht : dfSign.numCol "t" = [some 0, some 1, some 2] := rfl
    rw [corrEntry, hb, ht]
    simp [corrQ, pairedObs, covRaw, varRaw, centered, listMean, dot]
    norm_num
  refine ⟨by rw [hval1]; norm_num, by rw [hval2]; norm_num, ?_⟩
  exact C3_signed_descending dfSign "t" "a" "b" ⟨-2, 4⟩ ⟨1, 4⟩ (by decide) (by decide)
    h1 h2 (by norm_num) (by norm_num) (by rw [hval1]; norm_num)
    (by rw [hval2]; norm_num) (by rw [hval1, hval2]; norm_num)

theorem C4_topk_witness :
    dfSign.names.Nodup ∧
      ∃ l, topKCorr dfSign "t" 5 = some l ∧
        l.length = min 5 (((selectDtypes dfSign [Dtype.int64, Dtype.float64]).filter
          (fun c => c ≠ "t")).length) ∧
        ∀ f ∈ (selectDtypes dfSign [Dtype.int64, Dtype.float64]).filter
          (fun c => c ≠ "t"), (l.map Prod.fst).count f = 1 := by
  refine ⟨by decide, ?_⟩
  obtain ⟨l, h1, h2, h3⟩ := C4_topk_length_once dfSign "t" 5 (by decide) (by decide)
  exact ⟨l, h1, h2, h3 (by decide)⟩

theorem C5_crosstab_witness :
    (0, [(5, (1:ℚ)/2), (7, 1/2)]) ∈ crosstabDF dfGroups "g" "h" ∧
      (([(5, (1:ℚ)/2), (7, 1/2)] : List (ℕ × ℚ)).map Prod.snd).sum = 1 := by
  have hct : crosstabDF dfGroups "g" "h" =
      [(0, [(5, 1/2), (7, 1/2)]), (1, [(5, 0), (7, 1)])] := by
    have hg : dfGroups.catCol "g" = [some 0, some 0, some 1] := rfl
    have hh : dfGroups.catCol "h" = [some 5, some 7, some 7] := rfl
    rw [crosstabDF, hg, hh]
    simp [crosstab, crossPairs, List.insertionSort, List.orderedInsert, labelLe]
  have hmem : (0, [(5, (1:ℚ)/2), (7, 1/2)]) ∈ crosstabDF dfGroups "g" "h" := by
    rw [hct]
    exact List.mem_cons_self _ _
  exact ⟨hmem, (C5_crosstab_rows dfGroups "g" "h").1 0 _ hmem⟩

theorem C6_corr_matrix_witness :
    ("x" ∈ numFeatures dfPair "t" ∧ "y" ∈ numFeatures dfPair "t") ∧
      corrEntry dfPair "x" "y" = corrEntry dfPair "y" "x" ∧
      varRaw ((dfPair.numCol "x").filterMap id) ≠ 0 ∧
      ∃ c, corrEntry dfPair "x" "x" = some c ∧ c.val = 1 := by
  have hvar : varRaw ((dfPair.numCol "x").filterMap id) ≠ 0 := by
    have hx : (dfPair.numCol "x").filterMap id = [1, 2, 3, 4] := rfl
    rw [hx]
    norm_num [varRaw, dot, centered, listMean]
  obtain ⟨hsym, _, hdiag⟩ := C6_corr_matrix dfPair "t" "x" "y" (by decide) (by decide)
  exact ⟨⟨by decide, by decide⟩, hsym, hvar, hdiag hvar⟩

theorem C7_singleton_group_witness :
    (groupVals (dfGroups.catCol "g") (dfGroups.numCol "p") 1).length = 1 ∧
      ∃ g, (1, g) ∈ groupStats dfGroups "g" "p" ∧ g.count = 1 ∧ g.svar = none ∧
        g.std = none :=
  ⟨by decide, C7_singleton_group dfGroups "g" "p" 1 (by decide)⟩

theorem C8_insufficient_witness :
    (numFeatures dfSmallNum "t").length < 2 ∧
      (tab4 dfSmallNum "t" 10).redundancy = RedundancyResult.insufficientFeatures :=
  ⟨by decide, (C8_insufficient_features dfSmallNum "t" 10 (by decide)).1⟩

theorem C9_grouped_stats_witness :
    ∃ g, (1, g) ∈ groupStats dfGroups "g" "p" ∧
      g.median = medianQ (groupVals (dfGroups.catCol "g") (dfGroups.numCol "p") 1) ∧
      List.Pairwise statsAsc (groupStats dfGroups "g" "p") := by
  have hmem : (1, mkStats (groupVals (dfGroups.catCol "g") (dfGroups.numCol "p") 1)) ∈
      groupStats dfGroups "g" "p" :=
    mem_groupStats.2 ⟨by decide, rfl⟩
  have h := (C9_grouped_stats dfGroups "g" "p").2.2.1 1 _ hmem
  exact ⟨_, hmem, h.1, (C9_grouped_stats dfGroups "g" "p").2.2.2⟩

theorem C10_cat_for_class_witness :
    catForClass dfCatT "c" = some ((allCat dfCatT).filter (fun x => x ≠ "c")) ∧
      catForClass dfDateT "dt" = none := by
  constructor
  · exact (C10_cat_for_class dfCatT "c" (by decide)).1 (Or.inl (by decide))
  · exact (C10_cat_for_class dfDateT "dt" (by decide)).2 Dtype.datetime
      (by decide) (by decide) (by decide) (by decide)
